import Mathlib

/-!
Shallow embedding of the annotation-metadata redaction engine
(`slashannots/main.py`): the `DatePrecision` enum, the timestamp
parser/formatter (`parse_date`, `format_date`, wire format
`D:YYYYMMDDHHMMSS±HHMM` with apostrophes stripped before parsing),
the date truncation `redact_date`, the per-annotation redaction
procedure and the stats counters, together with theorems settling the
frozen claims about them.
-/

/-- Embeds `DatePrecision(enum.IntEnum)`: NONE=0 … MICRO=7, compared by value. -/
inductive DatePrecision where
  | NONE
  | YEAR
  | MONTH
  | DAY
  | HOUR
  | MINUTE
  | SECOND
  | MICRO
deriving DecidableEq, Repr

def DatePrecision.toNat : DatePrecision → Nat
  | .NONE => 0
  | .YEAR => 1
  | .MONTH => 2
  | .DAY => 3
  | .HOUR => 4
  | .MINUTE => 5
  | .SECOND => 6
  | .MICRO => 7

instance : LT DatePrecision := ⟨fun a b => a.toNat < b.toNat⟩

instance : LE DatePrecision := ⟨fun a b => a.toNat ≤ b.toNat⟩

instance (a b : DatePrecision) : Decidable (a < b) :=
  inferInstanceAs (Decidable (a.toNat < b.toNat))

instance (a b : DatePrecision) : Decidable (a ≤ b) :=
  inferInstanceAs (Decidable (a.toNat ≤ b.toNat))

/-- Embeds the `datetime` value produced by `strptime("D:%Y%m%d%H%M%S%z")`:
the parsed fields plus the timezone offset in minutes (`%z`). -/
structure PDFDate where
  year : Nat
  month : Nat
  day : Nat
  hour : Nat
  minute : Nat
  second : Nat
  microsecond : Nat
  tzoffset : Int
deriving DecidableEq, Repr

def digitChar (n : Nat) : Char := Char.ofNat (48 + n)

def isDigit (c : Char) : Prop := 48 ≤ c.toNat ∧ c.toNat ≤ 57

instance (c : Char) : Decidable (isDigit c) :=
  inferInstanceAs (Decidable (48 ≤ c.toNat ∧ c.toNat ≤ 57))

def digitVal (c : Char) : Nat := c.toNat - 48

/-- Fixed-width zero-padded decimal rendering, as `strftime` does for
`%Y` (width 4) and `%m%d%H%M%S` and the offset components (width 2). -/
def padNum : Nat → Nat → List Char
  | 0, _ => []
  | w + 1, n => digitChar (n / 10 ^ w) :: padNum w (n % 10 ^ w)

/-- Reads exactly `w` decimal digits, accumulating into `acc`, as the
fixed-width directives of `strptime` do on a canonical input. -/
def readNum : Nat → Nat → List Char → Option (Nat × List Char)
  | 0, acc, cs => some (acc, cs)
  | _ + 1, _, [] => none
  | w + 1, acc, c :: cs =>
      if isDigit c then readNum w (acc * 10 + digitVal c) cs else none

/-- Embeds the `%z` part of `strptime`: a sign, two offset-hour digits and
two offset-minute digits ending the string; `datetime.timezone` rejects
offsets of 24 hours or more. -/
def parseTZ : List Char → Option Int
  | c :: cs =>
      if c = '+' ∨ c = '-' then
        match readNum 2 0 cs with
        | some (hh, cs2) =>
            match readNum 2 0 cs2 with
            | some (mm, []) =>
                if hh * 60 + mm < 1440 then
                  some (if c = '-' then -((hh * 60 + mm : Nat) : Int)
                        else ((hh * 60 + mm : Nat) : Int))
                else none
            | _ => none
        | none => none
      else none
  | [] => none

def isLeapYear (y : Nat) : Prop := (y % 4 = 0 ∧ y % 100 ≠ 0) ∨ y % 400 = 0

instance (y : Nat) : Decidable (isLeapYear y) :=
  inferInstanceAs (Decidable ((y % 4 = 0 ∧ y % 100 ≠ 0) ∨ y % 400 = 0))

def daysInMonth (y m : Nat) : Nat :=
  if m = 2 then (if isLeapYear y then 29 else 28)
  else if m = 4 ∨ m = 6 ∨ m = 9 ∨ m = 11 then 30
  else 31

/-- Embeds `datetime.strptime(rdate, "D:%Y%m%d%H%M%S%z")` on the canonical
wire format: the literal `D:`, four year digits, two digits each for month,
day, hour, minute and second, then the offset; `datetime` validates the
field ranges (year ≥ 1, month 1–12, day within the month, hour ≤ 23,
minute ≤ 59, second ≤ 59) and sets `microsecond = 0` since no `%f` occurs. -/
def parseChars : List Char → Option PDFDate
  | c1 :: c2 :: cs =>
      if c1 = 'D' ∧ c2 = ':' then
      match readNum 4 0 cs with
      | some (y, cs1) =>
          match readNum 2 0 cs1 with
          | some (mo, cs2) =>
              match readNum 2 0 cs2 with
              | some (d, cs3) =>
                  match readNum 2 0 cs3 with
                  | some (h, cs4) =>
                      match readNum 2 0 cs4 with
                      | some (mi, cs5) =>
                          match readNum 2 0 cs5 with
                          | some (s, cs6) =>
                              match parseTZ cs6 with
                              | some off =>
                                  if 1 ≤ y ∧ 1 ≤ mo ∧ mo ≤ 12 ∧ 1 ≤ d ∧
                                      d ≤ daysInMonth y mo ∧ h ≤ 23 ∧
                                      mi ≤ 59 ∧ s ≤ 59 then
                                    some ⟨y, mo, d, h, mi, s, 0, off⟩
                                  else none
                              | none => none
                          | none => none
                      | none => none
                  | none => none
              | none => none
          | none => none
      | none => none
      else none
  | _ => none

/-- Embeds `parse_date`: strip apostrophes (`rdate.replace("'", "")`), then
parse in the fixed format. -/
def parse_date (s : String) : Option PDFDate :=
  parseChars (s.data.filter (fun c => c ≠ '\''))

/-- Embeds `strftime`'s `%z`: sign from the offset's sign (`+` for zero),
then two hour digits and two minute digits of the absolute offset. -/
def formatTZ (off : Int) : List Char :=
  (if off < 0 then '-' else '+') ::
    (padNum 2 (off.natAbs / 60) ++ padNum 2 (off.natAbs % 60))

def formatChars (d : PDFDate) : List Char :=
  'D' :: ':' ::
    (padNum 4 d.year ++ (padNum 2 d.month ++ (padNum 2 d.day ++
      (padNum 2 d.hour ++ (padNum 2 d.minute ++ (padNum 2 d.second ++
        formatTZ d.tzoffset))))))

/-- Embeds `format_date`: `date.strftime("D:%Y%m%d%H%M%S%z")`. -/
def format_date (d : PDFDate) : String := ⟨formatChars d⟩

/-- Embeds the seven conditional `date.replace(...)` steps of
`PdfAnnotationRedacter.redact_date`, applied finest to coarsest. -/
def truncDate (p : DatePrecision) (d : PDFDate) : PDFDate :=
  let d1 := if p < DatePrecision.MICRO then { d with microsecond := 0 } else d
  let d2 := if p < DatePrecision.SECOND then { d1 with second := 0 } else d1
  let d3 := if p < DatePrecision.MINUTE then { d2 with minute := 0 } else d2
  let d4 := if p < DatePrecision.HOUR then { d3 with hour := 0 } else d3
  let d5 := if p < DatePrecision.DAY then { d4 with day := 1 } else d4
  let d6 := if p < DatePrecision.MONTH then { d5 with month := 1 } else d5
  if p < DatePrecision.YEAR then { d6 with year := 1970 } else d6

/-- Embeds `redact_date` on one date string: parse (failure raises, here
`none`), truncate, re-encode. -/
def redact_date (p : DatePrecision) (s : String) : Option String :=
  (parse_date s).map (fun d => format_date (truncDate p d))

/-- Embeds one annotation dictionary: its `/Subtype`, optional `/T`
(author), optional `/CreationDate` and optional `/M` fields. -/
structure Annot where
  subtype : String
  author : Option String
  cdate : Option String
  mdate : Option String
deriving DecidableEq, Repr

/-- Embeds `collections.Counter` after a sequence of increments: an
association list from key to positive count; a key is present exactly
when it has been incremented. -/
abbrev Counter := List (String × Nat)

def Counter.get (c : Counter) (k : String) : Nat :=
  match c.find? (fun e => e.1 == k) with
  | some e => e.2
  | none => 0

def Counter.mem (c : Counter) (k : String) : Bool :=
  c.any (fun e => e.1 == k)

def Counter.incr : Counter → String → Counter
  | [], k => [(k, 1)]
  | (k', n) :: rest, k =>
      if k' == k then (k', n + 1) :: rest else (k', n) :: Counter.incr rest k

/-- Embeds `AnnotationStats`: the four author-keyed counters. -/
structure AnnotationStats where
  authorship_ctr : Counter
  redacted_authorships : Counter
  redacted_cdates : Counter
  redacted_mdates : Counter
deriving DecidableEq, Repr

def AnnotationStats.empty : AnnotationStats := ⟨[], [], [], []⟩

/-- Embeds the `PdfAnnotationRedacter` configuration. -/
structure RedactionPolicy where
  included_authors : List String
  redact_author : Bool
  precision : DatePrecision
  redacted_author_name : String

/-- Embeds the `is_clear_all` property: no author filter given. -/
def is_clear_all (P : RedactionPolicy) : Bool := P.included_authors.isEmpty

/-- Embeds lines 132-136 of `redact_annotation` (the `/M` part): result is
the updated annotation and stats plus an error flag for a parse failure. -/
def redactMDate (P : RedactionPolicy) (st : AnnotationStats) (a : Annot)
    (author : String) : Annot × AnnotationStats × Bool :=
  match a.mdate with
  | some s =>
      match redact_date P.precision s with
      | none => (a, st, true)
      | some s' =>
          ({ a with mdate := some s' },
           { st with redacted_mdates := st.redacted_mdates.incr author }, false)
  | none => (a, st, false)

/-- Embeds lines 127-136 of `redact_annotation` (the date-redaction tail):
`/CreationDate` first, then `/M`; a parse failure aborts with the
mutations applied so far kept. -/
def redactDates (P : RedactionPolicy) (st : AnnotationStats) (a : Annot)
    (author : String) : Annot × AnnotationStats × Bool :=
  match a.cdate with
  | some s =>
      match redact_date P.precision s with
      | none => (a, st, true)
      | some s' =>
          redactMDate P
            { st with redacted_cdates := st.redacted_cdates.incr author }
            { a with cdate := some s' } author
  | none => redactMDate P st a author

/-- Embeds `PdfAnnotationRedacter.redact_annotation`: skip `/Link`; count
and filter by author, overwriting the name when configured; then redact
the date fields. The Bool is true when a date parse failure raised. -/
def redact_annot (P : RedactionPolicy) (st : AnnotationStats) (a : Annot) :
    Annot × AnnotationStats × Bool :=
  if a.subtype == "/Link" then (a, st, false)
  else
    match a.author with
    | some author =>
        let st1 := { st with authorship_ctr := st.authorship_ctr.incr author }
        if !(is_clear_all P) && !(P.included_authors.contains author) then
          (a, st1, false)
        else
          let a1 := if P.redact_author then
              { a with author := some P.redacted_author_name } else a
          let st2 := if P.redact_author then
              { st1 with redacted_authorships :=
                  st1.redacted_authorships.incr author } else st1
          redactDates P st2 a1 author
    | none =>
        if !(is_clear_all P) then (a, st, false)
        else redactDates P st a ""

/-- Embeds the inner loop of `redact` over one page's `/Annots` list: the
first raised error aborts, keeping earlier in-place mutations and leaving
later annotations untouched. -/
def redactAnnots (P : RedactionPolicy) (st : AnnotationStats) :
    List Annot → List Annot × AnnotationStats × Bool
  | [] => ([], st, false)
  | a :: as =>
      let r := redact_annot P st a
      if r.2.2 then (r.1 :: as, r.2.1, true)
      else
        let rr := redactAnnots P r.2.1 as
        (r.1 :: rr.1, rr.2.1, rr.2.2)

/-- Embeds the page loop of `redact`: a document is the list of pages'
annotation lists; an error propagates, aborting the remaining pages. -/
def redactDoc (P : RedactionPolicy) (st : AnnotationStats) :
    List (List Annot) → List (List Annot) × AnnotationStats × Bool
  | [] => ([], st, false)
  | pg :: pgs =>
      let r := redactAnnots P st pg
      if r.2.2 then (r.1 :: pgs, r.2.1, true)
      else
        let rr := redactDoc P r.2.1 pgs
        (r.1 :: rr.1, rr.2.1, rr.2.2)

/-- Embeds one full run of `PdfAnnotationRedacter.redact`, starting from
the empty stats created in `__init__`. -/
def redact (P : RedactionPolicy) (doc : List (List Annot)) :
    List (List Annot) × AnnotationStats × Bool :=
  redactDoc P AnnotationStats.empty doc

/-- Characterizes the `datetime` values reachable from a successful
`strptime` in this format: the range checks `datetime` enforces, a zero
microsecond (no `%f` directive) and an offset below 24 hours. -/
def ValidDate (d : PDFDate) : Prop :=
  1 ≤ d.year ∧ d.year ≤ 9999 ∧ 1 ≤ d.month ∧ d.month ≤ 12 ∧
  1 ≤ d.day ∧ d.day ≤ daysInMonth d.year d.month ∧ d.hour ≤ 23 ∧
  d.minute ≤ 59 ∧ d.second ≤ 59 ∧ d.microsecond = 0 ∧ d.tzoffset.natAbs < 1440

instance (d : PDFDate) : Decidable (ValidDate d) := by
  unfold ValidDate
  infer_instance

/-- Mirrors the spec wording for the truncation: each timestamp component
whose level is strictly above the precision is reset to its base value
(zero for time-of-day components, 1 for day and month, 1970 for the year);
the other components and the timezone offset are unchanged. -/
def specReset (p : DatePrecision) (d : PDFDate) : PDFDate :=
  { year := if p < DatePrecision.YEAR then 1970 else d.year
    month := if p < DatePrecision.MONTH then 1 else d.month
    day := if p < DatePrecision.DAY then 1 else d.day
    hour := if p < DatePrecision.HOUR then 0 else d.hour
    minute := if p < DatePrecision.MINUTE then 0 else d.minute
    second := if p < DatePrecision.SECOND then 0 else d.second
    microsecond := if p < DatePrecision.MICRO then 0 else d.microsecond
    tzoffset := d.tzoffset }

def minP (a b : DatePrecision) : DatePrecision :=
  if a.toNat ≤ b.toNat then a else b

/-- Reaching the date-redaction tail of the per-annotation procedure: not
a `/Link`, and either the author passes the filter or the annotation is
authorless in clear-all mode. -/
def reachesDates (P : RedactionPolicy) (a : Annot) : Prop :=
  a.subtype ≠ "/Link" ∧
  match a.author with
  | some au => is_clear_all P = true ∨ P.included_authors.contains au = true
  | none => is_clear_all P = true

/-- A present date field whose value the date parser rejects. -/
def hasBadDate (a : Annot) : Prop :=
  (∃ s, a.cdate = some s ∧ parse_date s = none) ∨
  (∃ s, a.mdate = some s ∧ parse_date s = none)

/-! Helper lemmas about the digit renderer and reader. -/

theorem digitChar_toNat {k : Nat} (h : k ≤ 9) : (digitChar k).toNat = 48 + k := by
  interval_cases k <;> rfl

theorem isDigit_digitChar {k : Nat} (h : k ≤ 9) : isDigit (digitChar k) := by
  interval_cases k <;> decide

theorem digitVal_digitChar {k : Nat} (h : k ≤ 9) : digitVal (digitChar k) = k := by
  interval_cases k <;> rfl

theorem readNum_padNum (w : Nat) :
    ∀ acc n rest, n < 10 ^ w →
      readNum w acc (padNum w n ++ rest) = some (acc * 10 ^ w + n, rest) := by
  induction w with
  | zero =>
      intro acc n rest h
      interval_cases n
      simp [padNum, readNum]
  | succ w ih =>
      intro acc n rest h
      have hd : n / 10 ^ w ≤ 9 := by
        have h10 : n / 10 ^ w < 10 := Nat.div_lt_of_lt_mul (by rw [pow_succ] at h; omega)
        omega
      have hm : n % 10 ^ w < 10 ^ w := Nat.mod_lt _ (Nat.pos_pow_of_pos w (by omega))
      have hstep := ih (acc * 10 + n / 10 ^ w) (n % 10 ^ w) rest hm
      have hkey : (acc * 10 + n / 10 ^ w) * 10 ^ w + n % 10 ^ w =
          acc * 10 ^ (w + 1) + n := by
        have hdm : 10 ^ w * (n / 10 ^ w) + n % 10 ^ w = n := Nat.div_add_mod n (10 ^ w)
        calc (acc * 10 + n / 10 ^ w) * 10 ^ w + n % 10 ^ w
            = acc * (10 ^ w * 10) + (10 ^ w * (n / 10 ^ w) + n % 10 ^ w) := by ring
          _ = acc * 10 ^ (w + 1) + n := by rw [hdm, pow_succ]
      simp only [padNum, List.cons_append, List.append_eq, readNum,
        if_pos (isDigit_digitChar hd), digitVal_digitChar hd]
      rw [hstep, hkey]

theorem readNum_lt (w : Nat) :
    ∀ acc cs n rest, readNum w acc cs = some (n, rest) → n < (acc + 1) * 10 ^ w := by
  induction w with
  | zero =>
      intro acc cs n rest h
      simp [readNum] at h
      omega
  | succ w ih =>
      intro acc cs n rest h
      match cs with
      | [] => simp [readNum] at h
      | c :: cs' =>
          simp only [readNum] at h
          by_cases hc : isDigit c
          · rw [if_pos hc] at h
            have hd : digitVal c ≤ 9 := by
              unfold isDigit at hc
              unfold digitVal
              omega
            have := ih (acc * 10 + digitVal c) cs' n rest h
            calc n < (acc * 10 + digitVal c + 1) * 10 ^ w := this
              _ ≤ ((acc + 1) * 10) * 10 ^ w := Nat.mul_le_mul_right _ (by omega)
              _ = (acc + 1) * 10 ^ (w + 1) := by rw [pow_succ]; ring
          · rw [if_neg hc] at h
            exact absurd h (by simp)

theorem mem_padNum (w : Nat) :
    ∀ n c, n < 10 ^ w → c ∈ padNum w n → isDigit c := by
  induction w with
  | zero => intro n c _ hc; simp [padNum] at hc
  | succ w ih =>
      intro n c h hc
      have hd : n / 10 ^ w ≤ 9 := by
        have h10 : n / 10 ^ w < 10 := Nat.div_lt_of_lt_mul (by rw [pow_succ] at h; omega)
        omega
      have hm : n % 10 ^ w < 10 ^ w := Nat.mod_lt _ (Nat.pos_pow_of_pos w (by omega))
      simp only [padNum, List.mem_cons] at hc
      rcases hc with hc | hc
      · rw [hc]; exact isDigit_digitChar hd
      · exact ih _ c hm hc

theorem parseTZ_natAbs {cs : List Char} {off : Int}
    (h : parseTZ cs = some off) : off.natAbs < 1440 := by
  unfold parseTZ at h
  split at h
  case h_2 => exact absurd h (by simp)
  rename_i c cs'
  split at h
  case isFalse => exact absurd h (by simp)
  split at h
  case h_2 => exact absurd h (by simp)
  rename_i hh cs2 heq1
  split at h
  case h_2 => exact absurd h (by simp)
  rename_i mm heq2
  by_cases hb : hh * 60 + mm < 1440
  · rw [if_pos hb] at h
    by_cases hsgn : c = '-'
    · rw [if_pos hsgn] at h
      obtain rfl := Option.some.inj h
      omega
    · rw [if_neg hsgn] at h
      obtain rfl := Option.some.inj h
      omega
  · rw [if_neg hb] at h
    exact absurd h (by simp)

theorem parseChars_valid {cs : List Char} {d : PDFDate}
    (h : parseChars cs = some d) : ValidDate d := by
  unfold parseChars at h
  split at h
  case h_2 => exact absurd h (by simp)
  split at h
  case isFalse => exact absurd h (by simp)
  split at h
  case h_2 => exact absurd h (by simp)
  rename_i cs0 _ _ y cs1 h1
  split at h
  case h_2 => exact absurd h (by simp)
  split at h
  case h_2 => exact absurd h (by simp)
  split at h
  case h_2 => exact absurd h (by simp)
  split at h
  case h_2 => exact absurd h (by simp)
  split at h
  case h_2 => exact absurd h (by simp)
  split at h
  case h_2 => exact absurd h (by simp)
  rename_i off h7
  split at h
  case isFalse => exact absurd h (by simp)
  rename_i hrange
  have hy : y < 10000 := by
    have := readNum_lt 4 0 cs0 y cs1 h1
    simpa using this
  have hoff := parseTZ_natAbs h7
  obtain rfl := Option.some.inj h
  simp only [ValidDate]
  exact ⟨hrange.1, by omega, hrange.2.1, hrange.2.2.1, hrange.2.2.2.1,
    hrange.2.2.2.2.1, hrange.2.2.2.2.2.1, hrange.2.2.2.2.2.2.1,
    hrange.2.2.2.2.2.2.2, trivial, hoff⟩

theorem readNum_padNum0 (w n : Nat) (rest : List Char) (h : n < 10 ^ w) :
    readNum w 0 (padNum w n ++ rest) = some (n, rest) := by
  simpa using readNum_padNum w 0 n rest h

theorem daysInMonth_le (y m : Nat) : daysInMonth y m ≤ 31 := by
  unfold daysInMonth
  split
  · split <;> omega
  · split <;> omega

theorem one_le_daysInMonth (y m : Nat) : 1 ≤ daysInMonth y m := by
  unfold daysInMonth
  split
  · split <;> omega
  · split <;> omega

theorem parseTZ_formatTZ (off : Int) (h : off.natAbs < 1440) :
    parseTZ (formatTZ off) = some off := by
  have hh : off.natAbs / 60 < 10 ^ 2 := by omega
  have hm : off.natAbs % 60 < 10 ^ 2 := by omega
  have h2 := readNum_padNum0 2 (off.natAbs % 60) [] hm
  rw [List.append_nil] at h2
  have ha : off.natAbs / 60 * 60 + off.natAbs % 60 = off.natAbs := by omega
  unfold formatTZ parseTZ
  by_cases hneg : off < 0
  · rw [if_pos hneg]
    simp only [readNum_padNum0 2 (off.natAbs / 60) _ hh, h2, ha]
    rw [if_pos (Or.inr trivial), if_pos h, if_pos trivial]
    congr 1
    omega
  · rw [if_neg hneg]
    simp only [readNum_padNum0 2 (off.natAbs / 60) _ hh, h2, ha]
    rw [if_pos (Or.inl trivial), if_pos h, if_neg (by decide)]
    congr 1
    omega

theorem parseChars_formatChars (d : PDFDate) (h : ValidDate d) :
    parseChars (formatChars d) = some d := by
  obtain ⟨yr, mo, dy, hr, mi, sc, mic, off⟩ := d
  obtain ⟨h1, h2, h3, h4, h5, h6, h7, h8, h9, h10, h11⟩ := h
  simp only at h1 h2 h3 h4 h5 h6 h7 h8 h9 h10 h11
  subst h10
  have hy : yr < 10 ^ 4 := by omega
  have hmo : mo < 10 ^ 2 := by omega
  have hdy : dy < 10 ^ 2 := by
    have := daysInMonth_le yr mo
    omega
  have hhr : hr < 10 ^ 2 := by omega
  have hmi : mi < 10 ^ 2 := by omega
  have hsc : sc < 10 ^ 2 := by omega
  simp only [formatChars, parseChars]
  simp only [readNum_padNum0 _ _ _ hy, readNum_padNum0 _ _ _ hmo,
    readNum_padNum0 _ _ _ hdy, readNum_padNum0 _ _ _ hhr,
    readNum_padNum0 _ _ _ hmi, readNum_padNum0 _ _ _ hsc,
    parseTZ_formatTZ off h11]
  simp [h1, h3, h4, h5, h6, h7, h8, h9]

theorem isDigit_ne_apos {c : Char} (hd : isDigit c) : ¬ c = '\'' := by
  intro he
  subst he
  exact absurd hd (by decide)

theorem filter_formatChars (d : PDFDate) (h : ValidDate d) :
    (formatChars d).filter (fun c => c ≠ '\'') = formatChars d := by
  obtain ⟨h1, h2, h3, h4, h5, h6, h7, h8, h9, h10, h11⟩ := h
  have hd31 := daysInMonth_le d.year d.month
  apply List.filter_eq_self.mpr
  intro c hc
  simp only [formatChars, formatTZ, List.mem_cons, List.mem_append] at hc
  have hdig : ∀ w n, n < 10 ^ w → c ∈ padNum w n → (decide (c ≠ '\'') = true) := by
    intro w n hn hmem
    simpa using isDigit_ne_apos (mem_padNum w n c hn hmem)
  rcases hc with rfl | rfl | hc | hc | hc | hc | hc | hc | rfl | hc | hc
  · decide
  · decide
  · exact hdig 4 _ (by omega) hc
  · exact hdig 2 _ (by omega) hc
  · exact hdig 2 _ (by omega) hc
  · exact hdig 2 _ (by omega) hc
  · exact hdig 2 _ (by omega) hc
  · exact hdig 2 _ (by omega) hc
  · split <;> decide
  · exact hdig 2 _ (by omega) hc
  · exact hdig 2 _ (by omega) hc

theorem parse_date_format_date (d : PDFDate) (h : ValidDate d) :
    parse_date (format_date d) = some d := by
  unfold parse_date format_date
  show parseChars ((formatChars d).filter _) = some d
  rw [filter_formatChars d h]
  exact parseChars_formatChars d h

theorem parse_date_valid {s : String} {d : PDFDate}
    (h : parse_date s = some d) : ValidDate d := parseChars_valid h

theorem truncDate_eq_specReset (p : DatePrecision) (d : PDFDate) :
    truncDate p d = specReset p d := by
  cases p <;> rfl

theorem specReset_specReset (q p : DatePrecision) (d : PDFDate) :
    specReset q (specReset p d) = specReset (minP q p) d := by
  cases p <;> cases q <;> rfl

theorem truncDate_truncDate (q p : DatePrecision) (d : PDFDate) :
    truncDate q (truncDate p d) = truncDate (minP q p) d := by
  rw [truncDate_eq_specReset, truncDate_eq_specReset, truncDate_eq_specReset,
    specReset_specReset]

theorem validDate_truncDate (p : DatePrecision) (d : PDFDate) (h : ValidDate d) :
    ValidDate (truncDate p d) := by
  obtain ⟨h1, h2, h3, h4, h5, h6, h7, h8, h9, h10, h11⟩ := h
  rw [truncDate_eq_specReset]
  unfold specReset ValidDate
  dsimp only
  refine ⟨?_, ?_, ?_, ?_, ?_, ?_, ?_, ?_, ?_, ?_, h11⟩
  · split <;> omega
  · split <;> omega
  · split <;> omega
  · split <;> omega
  · split <;> omega
  · by_cases hd : p < DatePrecision.DAY
    · rw [if_pos hd]
      exact one_le_daysInMonth _ _
    · have hdn : ¬ p.toNat < 3 := hd
      have hm : ¬ p < DatePrecision.MONTH := by
        intro hmm
        have hm2 : p.toNat < 2 := hmm
        omega
      have hy : ¬ p < DatePrecision.YEAR := by
        intro hyy
        have hy1 : p.toNat < 1 := hyy
        omega
      rw [if_neg hd, if_neg hm, if_neg hy]
      exact h6
  · split <;> omega
  · split <;> omega
  · split <;> omega
  · split <;> omega

theorem redact_date_eq_some {p : DatePrecision} {s t : String}
    (h : redact_date p s = some t) :
    ∃ d, parse_date s = some d ∧ t = format_date (truncDate p d) := by
  unfold redact_date at h
  cases hp : parse_date s with
  | none =>
      rw [hp] at h
      exact absurd h (by simp)
  | some d =>
      rw [hp] at h
      exact ⟨d, rfl, (Option.some.inj h).symm⟩

theorem minP_self (p : DatePrecision) : minP p p = p := by
  unfold minP
  split <;> rfl

theorem minP_of_le {q p : DatePrecision} (h : q ≤ p) : minP q p = q := by
  unfold minP
  have hn : q.toNat ≤ p.toNat := h
  rw [if_pos hn]

theorem minP_of_gt {p1 p2 : DatePrecision} (h : p1 < p2) : minP p2 p1 = p1 := by
  unfold minP
  have hn : p1.toNat < p2.toNat := h
  rw [if_neg (by omega)]

/-- Key composition fact: a second truncation pass over an already
truncated date string behaves like a single pass at the finer-of-the-two
precision applied to the original string. -/
theorem redact_date_comp (q p : DatePrecision) (s t : String)
    (h : redact_date p s = some t) :
    redact_date q t = redact_date (minP q p) s := by
  obtain ⟨d, hp, rfl⟩ := redact_date_eq_some h
  have hv := parse_date_valid hp
  have hvt := validDate_truncDate p d hv
  show (parse_date (format_date (truncDate p d))).map _ =
    (parse_date s).map _
  rw [parse_date_format_date _ hvt, hp]
  simp only [Option.map_some']
  rw [truncDate_truncDate]

theorem redactDates_err (P : RedactionPolicy) (st : AnnotationStats) (a : Annot)
    (author : String) (hbad : hasBadDate a) :
    (redactDates P st a author).2.2 = true := by
  cases hc : a.cdate with
  | some s =>
      cases hps : parse_date s with
      | none => simp [redactDates, hc, redact_date, hps]
      | some dd =>
          have hbad2 : ∃ s2, a.mdate = some s2 ∧ parse_date s2 = none := by
            rcases hbad with ⟨s1, hs1, hps1⟩ | h2
            · rw [hc] at hs1
              obtain rfl := Option.some.inj hs1
              rw [hps] at hps1
              exact absurd hps1 (by simp)
            · exact h2
          obtain ⟨s2, hs2, hps2⟩ := hbad2
          simp [redactDates, hc, redact_date, hps, redactMDate, hs2, hps2]
  | none =>
      have hbad2 : ∃ s2, a.mdate = some s2 ∧ parse_date s2 = none := by
        rcases hbad with ⟨s1, hs1, hps1⟩ | h2
        · rw [hc] at hs1
          exact absurd hs1 (by simp)
        · exact h2
      obtain ⟨s2, hs2, hps2⟩ := hbad2
      simp [redactDates, hc, redactMDate, hs2, redact_date, hps2]

theorem redact_annot_err (P : RedactionPolicy) (st : AnnotationStats)
    (b : Annot) (hreach : reachesDates P b) (hbad : hasBadDate b) :
    (redact_annot P st b).2.2 = true := by
  obtain ⟨hL, hfil⟩ := hreach
  have hLb : (b.subtype == "/Link") = false := by
    simp [hL]
  cases hau : b.author with
  | some au =>
      rw [hau] at hfil
      have hcond : (!(is_clear_all P) && !(P.included_authors.contains au)) = false := by
        rcases hfil with hca | hmem
        · rw [hca]
          rfl
        · rw [hmem]
          simp
      simp only [redact_annot, hLb, Bool.false_eq_true, if_false, hau, hcond]
      cases hra : P.redact_author <;>
        · simp only [Bool.false_eq_true, if_false, if_true, ite_true, ite_false]
          exact redactDates_err _ _ _ _ hbad
  | none =>
      rw [hau] at hfil
      simp [redact_annot, hLb, hau, hfil]
      exact redactDates_err _ _ _ _ hbad

theorem redactAnnots_append (P : RedactionPolicy) :
    ∀ (pre : List Annot) (st0 : AnnotationStats) (pre' : List Annot)
      (st1 : AnnotationStats) (b : Annot) (post : List Annot),
      redactAnnots P st0 pre = (pre', st1, false) →
      (redact_annot P st1 b).2.2 = true →
      redactAnnots P st0 (pre ++ b :: post) =
        (pre' ++ (redact_annot P st1 b).1 :: post,
         (redact_annot P st1 b).2.1, true) := by
  intro pre
  induction pre with
  | nil =>
      intro st0 pre' st1 b post h hb
      simp only [redactAnnots] at h
      injection h with h1 h2
      injection h2 with h2a h2b
      subst h1
      subst h2a
      simp [redactAnnots, hb]
  | cons a as ih =>
      intro st0 pre' st1 b post h hb
      simp only [redactAnnots] at h
      by_cases he : (redact_annot P st0 a).2.2 = true
      · rw [if_pos he] at h
        injection h with h1 h2
        injection h2 with h2a h2b
        exact absurd h2b (by simp)
      · rw [if_neg he] at h
        injection h with h1 h2
        injection h2 with h2a h2b
        have hrr : redactAnnots P (redact_annot P st0 a).2.1 as =
            ((redactAnnots P (redact_annot P st0 a).2.1 as).1, st1, false) := by
          rw [← h2a, ← h2b]
        have hih := ih (redact_annot P st0 a).2.1
          (redactAnnots P (redact_annot P st0 a).2.1 as).1 st1 b post hrr hb
        simp only [List.cons_append, redactAnnots, hih]
        rw [if_neg he]
        rw [← h1]
        simp [hih]

theorem redactDoc_append (P : RedactionPolicy) :
    ∀ (pgs : List (List Annot)) (st0 : AnnotationStats)
      (pgs' : List (List Annot)) (st1 : AnnotationStats)
      (badpg : List Annot) (pgpost : List (List Annot)),
      redactDoc P st0 pgs = (pgs', st1, false) →
      (redactAnnots P st1 badpg).2.2 = true →
      redactDoc P st0 (pgs ++ badpg :: pgpost) =
        (pgs' ++ (redactAnnots P st1 badpg).1 :: pgpost,
         (redactAnnots P st1 badpg).2.1, true) := by
  intro pgs
  induction pgs with
  | nil =>
      intro st0 pgs' st1 badpg pgpost h hb
      simp only [redactDoc] at h
      injection h with h1 h2
      injection h2 with h2a h2b
      subst h1
      subst h2a
      simp [redactDoc, hb]
  | cons pg pgrest ih =>
      intro st0 pgs' st1 badpg pgpost h hb
      simp only [redactDoc] at h
      by_cases he : (redactAnnots P st0 pg).2.2 = true
      · rw [if_pos he] at h
        injection h with h1 h2
        injection h2 with h2a h2b
        exact absurd h2b (by simp)
      · rw [if_neg he] at h
        injection h with h1 h2
        injection h2 with h2a h2b
        have hrr : redactDoc P (redactAnnots P st0 pg).2.1 pgrest =
            ((redactDoc P (redactAnnots P st0 pg).2.1 pgrest).1, st1, false) := by
          rw [← h2a, ← h2b]
        have hih := ih (redactAnnots P st0 pg).2.1
          (redactDoc P (redactAnnots P st0 pg).2.1 pgrest).1 st1 badpg pgpost hrr hb
        simp only [List.cons_append, redactDoc, hih]
        rw [if_neg he]
        rw [← h1]
        simp [hih]

/-- Claim C1: the claimed stats invariant (every author key present in a
redacted counter is present in the seen counter with at least that count,
including the empty-string key) is violated by the code: redacting an
authorless annotation that has a creation date in clear-all mode counts
the creation date under the empty-string key while the seen counter never
receives that key, contradicting the assertions in `pprint_stats`. -/
theorem C1_stats_invariant_violated :
    ((redact ⟨[], true, DatePrecision.NONE, "unknown"⟩
        [[⟨"/Text", none, some "D:20230615120000+0000", none⟩]]).2.1.redacted_cdates.mem ""
      = true) ∧
    ((redact ⟨[], true, DatePrecision.NONE, "unknown"⟩
        [[⟨"/Text", none, some "D:20230615120000+0000", none⟩]]).2.1.authorship_ctr.mem ""
      = false) := by
  decide

/-- Claim C2 counterexample: on the claimed scenario the engine does not
produce creation date `D:20230601000000+0000`; DAY precision keeps the
day-of-month, so the claimed output document is wrong. -/
theorem C2_counterexample :
    ¬ ((redact ⟨[], true, DatePrecision.DAY, "unknown"⟩
        [[⟨"/Text", some "alice", some "D:20230615120000+0000", none⟩]]).1 =
      [[⟨"/Text", some "unknown", some "D:20230601000000+0000", none⟩]]) := by
  decide

/-- Claim C2 as amended: the scenario yields author `unknown`, creation
date `D:20230615000000+0000` (hour, minute, second zeroed; day kept), and
stats counting alice once in the seen, names-redacted and
creation-dates-redacted counters. -/
theorem C2_scenario :
    redact ⟨[], true, DatePrecision.DAY, "unknown"⟩
      [[⟨"/Text", some "alice", some "D:20230615120000+0000", none⟩]] =
    ([[⟨"/Text", some "unknown", some "D:20230615000000+0000", none⟩]],
     ⟨[("alice", 1)], [("alice", 1)], [("alice", 1)], []⟩, false) := by
  decide

/-- Claim C3: for every precision and every parseable timestamp, the
truncation re-encodes the parsed timestamp with exactly the components
whose level is strictly above the precision reset (microsecond, second,
minute, hour to 0; day, month to 1; year to 1970), all other components
and the timezone offset unchanged. -/
theorem C3_truncation_resets_components (p : DatePrecision) (s : String)
    (d : PDFDate) (h : parse_date s = some d) :
    redact_date p s = some (format_date (specReset p d)) := by
  unfold redact_date
  rw [h]
  simp only [Option.map_some']
  rw [truncDate_eq_specReset]

theorem C3_witness :
    parse_date "D:20230615120000+0000" =
      some ⟨2023, 6, 15, 12, 0, 0, 0, 0⟩ ∧
    redact_date DatePrecision.DAY "D:20230615120000+0000" =
      some (format_date (specReset DatePrecision.DAY ⟨2023, 6, 15, 12, 0, 0, 0, 0⟩)) :=
  ⟨by decide,
   C3_truncation_resets_components DatePrecision.DAY "D:20230615120000+0000"
     ⟨2023, 6, 15, 12, 0, 0, 0, 0⟩ (by decide)⟩

/-- Claim C4: an annotation whose subtype is `/Link` is returned unchanged
with unchanged stats and no error, for every policy. -/
theorem C4_link_untouched (P : RedactionPolicy) (st : AnnotationStats)
    (a : Annot) (h : a.subtype = "/Link") :
    redact_annot P st a = (a, st, false) := by
  simp [redact_annot, h]

theorem C4_witness :
    ("/Link" : String) = "/Link" ∧
    redact_annot ⟨[], true, DatePrecision.NONE, "unknown"⟩ AnnotationStats.empty
      ⟨"/Link", some "alice", some "D:20230615120000+0000", none⟩ =
    (⟨"/Link", some "alice", some "D:20230615120000+0000", none⟩,
     AnnotationStats.empty, false) :=
  ⟨rfl,
   C4_link_untouched ⟨[], true, DatePrecision.NONE, "unknown"⟩
     AnnotationStats.empty
     ⟨"/Link", some "alice", some "D:20230615120000+0000", none⟩ rfl⟩

/-- Claim C5: with a non-empty author filter, a non-Link annotation whose
author is present but not in the filter is returned unchanged, and the
only stats effect is one increment of the seen counter for that author. -/
theorem C5_filtered_author_untouched (P : RedactionPolicy)
    (st : AnnotationStats) (a : Annot) (au : String)
    (hL : a.subtype ≠ "/Link") (hau : a.author = some au)
    (hne : P.included_authors ≠ [])
    (hmem : P.included_authors.contains au = false) :
    redact_annot P st a =
      (a, { st with authorship_ctr := st.authorship_ctr.incr au }, false) := by
  have hLb : (a.subtype == "/Link") = false := by
    simp [hL]
  have hclear : is_clear_all P = false := by
    unfold is_clear_all
    cases hP : P.included_authors with
    | nil => exact absurd hP hne
    | cons x xs => rfl
  simp [redact_annot, hLb, hau, hclear, hmem]
  intro hin
  have helem : P.included_authors.elem au = true := List.elem_eq_true_of_mem hin
  rw [show P.included_authors.contains au = P.included_authors.elem au from rfl,
    helem] at hmem
  cases hmem

theorem C5_witness :
    (⟨"/Text", some "alice", some "D:20230615120000+0000", none⟩ : Annot).subtype ≠ "/Link" ∧
    (⟨"/Text", some "alice", some "D:20230615120000+0000", none⟩ : Annot).author = some "alice" ∧
    (["bob"] : List String) ≠ [] ∧
    (["bob"].contains "alice") = false ∧
    redact_annot ⟨["bob"], true, DatePrecision.NONE, "unknown"⟩
      AnnotationStats.empty
      ⟨"/Text", some "alice", some "D:20230615120000+0000", none⟩ =
    (⟨"/Text", some "alice", some "D:20230615120000+0000", none⟩,
     ⟨[("alice", 1)], [], [], []⟩, false) :=
  ⟨by decide, rfl, by decide, by decide,
   C5_filtered_author_untouched ⟨["bob"], true, DatePrecision.NONE, "unknown"⟩
     AnnotationStats.empty
     ⟨"/Text", some "alice", some "D:20230615120000+0000", none⟩ "alice"
     (by decide) rfl (by decide) (by decide)⟩

/-- Claim C7: truncation is idempotent on date strings, and truncating an
already-truncated value at the same or a coarser precision equals a
single direct truncation of the original at that precision. -/
theorem C7_idempotent (p q : DatePrecision) (s t : String)
    (h : redact_date p s = some t) :
    redact_date p t = some t ∧
    (q ≤ p → redact_date q t = redact_date q s) := by
  constructor
  · rw [redact_date_comp p p s t h, minP_self]
    exact h
  · intro hq
    rw [redact_date_comp q p s t h, minP_of_le hq]

theorem C7_witness :
    redact_date DatePrecision.DAY "D:20230615120000+0000" =
      some "D:20230615000000+0000" ∧
    (redact_date DatePrecision.DAY "D:20230615000000+0000" =
      some "D:20230615000000+0000" ∧
     (DatePrecision.YEAR ≤ DatePrecision.DAY →
      redact_date DatePrecision.YEAR "D:20230615000000+0000" =
        redact_date DatePrecision.YEAR "D:20230615120000+0000")) :=
  ⟨by decide,
   C7_idempotent DatePrecision.DAY DatePrecision.YEAR
     "D:20230615120000+0000" "D:20230615000000+0000" (by decide)⟩

/-- Claim C8: for precisions p1 < p2, truncating at p1 and then at p2
yields the p1 result unchanged: the finer second pass does not undo the
coarser first truncation. -/
theorem C8_monotone (p1 p2 : DatePrecision) (s t : String)
    (hlt : p1 < p2) (h : redact_date p1 s = some t) :
    redact_date p2 t = some t := by
  rw [redact_date_comp p2 p1 s t h, minP_of_gt hlt]
  exact h

theorem C8_witness :
    DatePrecision.NONE < DatePrecision.DAY ∧
    redact_date DatePrecision.NONE "D:20230615120000+0000" =
      some "D:19700101000000+0000" ∧
    redact_date DatePrecision.DAY "D:19700101000000+0000" =
      some "D:19700101000000+0000" :=
  ⟨by decide, by decide,
   C8_monotone DatePrecision.NONE DatePrecision.DAY
     "D:20230615120000+0000" "D:19700101000000+0000" (by decide) (by decide)⟩

/-- Claim C6: a non-Link annotation without an author field is left
entirely unchanged (annotation and stats) when an author filter is
present; in clear-all mode each present (parseable) date field is
truncated and the matching date counter is incremented under the
empty-string key, while the seen counter is untouched. -/
theorem C6_authorless (P : RedactionPolicy) (st : AnnotationStats) (a : Annot)
    (hL : a.subtype ≠ "/Link") (hau : a.author = none) :
    (P.included_authors ≠ [] → redact_annot P st a = (a, st, false)) ∧
    (P.included_authors = [] →
      (∀ s, a.cdate = some s → (redact_date P.precision s).isSome) →
      (∀ s, a.mdate = some s → (redact_date P.precision s).isSome) →
      redact_annot P st a =
        ({ a with cdate := a.cdate.bind (redact_date P.precision),
                  mdate := a.mdate.bind (redact_date P.precision) },
         { st with
             redacted_cdates :=
               if a.cdate.isSome then st.redacted_cdates.incr ""
               else st.redacted_cdates,
             redacted_mdates :=
               if a.mdate.isSome then st.redacted_mdates.incr ""
               else st.redacted_mdates },
         false)) := by
  have hLb : (a.subtype == "/Link") = false := by
    simp [hL]
  constructor
  · intro hne
    have hclear : is_clear_all P = false := by
      unfold is_clear_all
      cases hP : P.included_authors with
      | nil => exact absurd hP hne
      | cons x xs => rfl
    simp [redact_annot, hLb, hau, hclear]
  · intro hnil hc hm
    have hca : is_clear_all P = true := by
      unfold is_clear_all
      rw [hnil]
      rfl
    obtain ⟨su, oau, ocd, omd⟩ := a
    simp only at hau hc hm
    subst hau
    cases ocd with
    | some cs =>
        obtain ⟨ct, hct⟩ := Option.isSome_iff_exists.mp (hc cs rfl)
        cases omd with
        | some ms =>
            obtain ⟨mt, hmt⟩ := Option.isSome_iff_exists.mp (hm ms rfl)
            simp [redact_annot, hLb, hca, redactDates, redactMDate, hct, hmt]
        | none =>
            simp [redact_annot, hLb, hca, redactDates, redactMDate, hct]
    | none =>
        cases omd with
        | some ms =>
            obtain ⟨mt, hmt⟩ := Option.isSome_iff_exists.mp (hm ms rfl)
            simp [redact_annot, hLb, hca, redactDates, redactMDate, hmt]
        | none =>
            simp [redact_annot, hLb, hca, redactDates, redactMDate]

theorem C6_witness :
    ((⟨"/Text", none, some "D:20230615120000+0000", none⟩ : Annot).subtype
      ≠ "/Link") ∧
    redact_annot ⟨[], true, DatePrecision.NONE, "unknown"⟩
        AnnotationStats.empty
        ⟨"/Text", none, some "D:20230615120000+0000", none⟩ =
      (⟨"/Text", none, some "D:19700101000000+0000", none⟩,
       ⟨[], [], [("", 1)], []⟩, false) := by
  constructor
  · decide
  · have h := (C6_authorless ⟨[], true, DatePrecision.NONE, "unknown"⟩
      AnnotationStats.empty
      ⟨"/Text", none, some "D:20230615120000+0000", none⟩
      (by decide) rfl).2 rfl
      (by
        intro s hs
        obtain rfl := Option.some.inj hs
        decide)
      (by
        intro s hs
        cases hs)
    rw [h]
    decide

/-- Claim C9: when a visited annotation that reaches date redaction has a
present creation or modification date that does not parse, the run aborts
with the error surfaced (error flag true): earlier pages and earlier
annotations of the failing page keep the mutations already applied, the
failing annotation is left in its partially mutated state, and later
annotations and pages are untouched. -/
theorem C9_parse_failure_aborts (P : RedactionPolicy) (st0 : AnnotationStats)
    (pgpre pgpre' : List (List Annot)) (st1 st2 : AnnotationStats)
    (apre apre' apost : List Annot) (b : Annot) (pgpost : List (List Annot))
    (h1 : redactDoc P st0 pgpre = (pgpre', st1, false))
    (h2 : redactAnnots P st1 apre = (apre', st2, false))
    (hreach : reachesDates P b) (hbad : hasBadDate b) :
    redactDoc P st0 (pgpre ++ (apre ++ b :: apost) :: pgpost) =
      (pgpre' ++ (apre' ++ (redact_annot P st2 b).1 :: apost) :: pgpost,
       (redact_annot P st2 b).2.1, true) := by
  have herr := redact_annot_err P st2 b hreach hbad
  have hpage := redactAnnots_append P apre st1 apre' st2 b apost h2 herr
  have hrun := redactDoc_append P pgpre st0 pgpre' st1 (apre ++ b :: apost)
    pgpost h1 (by rw [hpage])
  rw [hrun, hpage]

theorem C9_witness :
    redactDoc ⟨[], true, DatePrecision.NONE, "unknown"⟩
        AnnotationStats.empty [] = ([], AnnotationStats.empty, false) ∧
    redactAnnots ⟨[], true, DatePrecision.NONE, "unknown"⟩
        AnnotationStats.empty [] = ([], AnnotationStats.empty, false) ∧
    reachesDates ⟨[], true, DatePrecision.NONE, "unknown"⟩
        ⟨"/Text", none, some "garbage", none⟩ ∧
    hasBadDate ⟨"/Text", none, some "garbage", none⟩ ∧
    redactDoc ⟨[], true, DatePrecision.NONE, "unknown"⟩
        AnnotationStats.empty
        ([] ++ ([] ++ (⟨"/Text", none, some "garbage", none⟩ : Annot) :: []) :: []) =
      ([] ++ ([] ++ (redact_annot ⟨[], true, DatePrecision.NONE, "unknown"⟩
          AnnotationStats.empty ⟨"/Text", none, some "garbage", none⟩).1 :: []) :: [],
       (redact_annot ⟨[], true, DatePrecision.NONE, "unknown"⟩
          AnnotationStats.empty ⟨"/Text", none, some "garbage", none⟩).2.1, true) :=
  ⟨rfl, rfl, ⟨by decide, by decide⟩, Or.inl ⟨"garbage", rfl, by decide⟩,
   C9_parse_failure_aborts ⟨[], true, DatePrecision.NONE, "unknown"⟩
     AnnotationStats.empty [] [] AnnotationStats.empty AnnotationStats.empty
     [] [] [] ⟨"/Text", none, some "garbage", none⟩ []
     rfl rfl ⟨by decide, by decide⟩ (Or.inl ⟨"garbage", rfl, by decide⟩)⟩

/-- Claim C10: when the failing annotation's creation date cannot be
parsed but its author passed the filter with author redaction on, the
aborted run keeps the already-applied mutations to that annotation: its
author is overwritten and the seen and names-redacted counters are
incremented for the original author, while its modification date and all
date counters are untouched. -/
theorem C10_partial_mutation_persists (P : RedactionPolicy)
    (st0 st1 : AnnotationStats) (pre pre' post : List Annot) (b : Annot)
    (au s : String)
    (hpre : redactAnnots P st0 pre = (pre', st1, false))
    (hL : b.subtype ≠ "/Link") (hau : b.author = some au)
    (hpass : is_clear_all P = true ∨ P.included_authors.contains au = true)
    (hra : P.redact_author = true)
    (hcd : b.cdate = some s) (hps : parse_date s = none) :
    redactAnnots P st0 (pre ++ b :: post) =
      (pre' ++ { b with author := some P.redacted_author_name } :: post,
       { st1 with
           authorship_ctr := st1.authorship_ctr.incr au,
           redacted_authorships := st1.redacted_authorships.incr au }, true) := by
  have hb : redact_annot P st1 b =
      ({ b with author := some P.redacted_author_name },
       { st1 with
           authorship_ctr := st1.authorship_ctr.incr au,
           redacted_authorships := st1.redacted_authorships.incr au }, true) := by
    have hLb : (b.subtype == "/Link") = false := by
      simp [hL]
    have hcond : (!(is_clear_all P) && !(P.included_authors.contains au)) = false := by
      rcases hpass with hca | hmem
      · rw [hca]
        rfl
      · rw [hmem]
        simp
    simp [redact_annot, hLb, hau, hcond, hra, redactDates, hcd, redact_date, hps]
    intro hcl
    rcases hpass with hca | hmem
    · rw [hca] at hcl
      cases hcl
    · exact List.mem_of_elem_eq_true hmem
  have herr : (redact_annot P st1 b).2.2 = true := by
    rw [hb]
  have hrun := redactAnnots_append P pre st0 pre' st1 b post hpre herr
  rw [hrun, hb]

theorem C10_witness :
    redactAnnots ⟨[], true, DatePrecision.NONE, "unknown"⟩
        AnnotationStats.empty [] = ([], AnnotationStats.empty, false) ∧
    ((⟨"/Text", some "alice", some "garbage", some "D:20230615120000+0000"⟩ :
        Annot).subtype ≠ "/Link") ∧
    (is_clear_all ⟨[], true, DatePrecision.NONE, "unknown"⟩ = true ∨
      (List.contains [] "alice") = true) ∧
    parse_date "garbage" = none ∧
    redactAnnots ⟨[], true, DatePrecision.NONE, "unknown"⟩
        AnnotationStats.empty
        ([] ++ (⟨"/Text", some "alice", some "garbage",
          some "D:20230615120000+0000"⟩ : Annot) :: []) =
      ([] ++ (⟨"/Text", some "unknown", some "garbage",
          some "D:20230615120000+0000"⟩ : Annot) :: [],
       ⟨[("alice", 1)], [("alice", 1)], [], []⟩, true) :=
  ⟨rfl, by decide, Or.inl rfl, by decide,
   C10_partial_mutation_persists ⟨[], true, DatePrecision.NONE, "unknown"⟩
     AnnotationStats.empty AnnotationStats.empty [] [] []
     ⟨"/Text", some "alice", some "garbage", some "D:20230615120000+0000"⟩
     "alice" "garbage" rfl (by decide) rfl (Or.inl rfl) rfl rfl (by decide)⟩
